import Mathlib

/-!
# Verification of the Definitions dictionary-lookup module

A shallow embedding of `src/__init__.py` (the Breadcord "Definitions" cog):
a text normalizer, two dictionary-source adapters (formal dictionary API and
Urban Dictionary), a presentation builder producing an embed, and the
`define` command orchestrator.

Python strings are modelled as Lean `String` (a list of characters); `dict`
values with optional keys are modelled as structures with `Option` fields,
where `.get("k")` reads the `Option` and `["k"]` raises `KeyError` when the
field is `none`.  Python exceptions are modelled with `Except PyErr`.
Character classification (`str.isalnum`, `str.isspace`, `str.lower`) is
modelled by Lean's ASCII-based `Char.isAlphanum`, `Char.isWhitespace` and an
explicit ASCII lower-casing function, which agree with Python on the ASCII
fragment.
-/

namespace Defs

instance {ε α : Type} [DecidableEq ε] [DecidableEq α] : DecidableEq (Except ε α) :=
  fun a b =>
    match a, b with
    | .ok x, .ok y =>
      if h : x = y then .isTrue (by rw [h]) else .isFalse (by intro hc; cases hc; exact h rfl)
    | .error x, .error y =>
      if h : x = y then .isTrue (by rw [h]) else .isFalse (by intro hc; cases hc; exact h rfl)
    | .ok _, .error _ => .isFalse (by intro hc; cases hc)
    | .error _, .ok _ => .isFalse (by intro hc; cases hc)

/-- Python exceptions that the embedded code can raise. -/
inductive PyErr where
  | keyError : String → PyErr
  | typeError : PyErr
  | indexError : PyErr
deriving DecidableEq, Repr

/-- Mirrors the `Meaning` dataclass.  The Python field `example` is called
`example'` here because `example` is a Lean keyword. -/
structure Meaning where
  word_class : Option String
  definition : String
  example' : Option String
  synonyms : List String
  antonyms : List String
deriving DecidableEq, Repr

/-- Mirrors the `Word` dataclass. -/
structure Word where
  word : String
  phonetic_str : Option String
  phonetic_audio_url : Option String
  meanings : List Meaning
deriving DecidableEq, Repr

/-- One record of the formal dictionary's `phonetics` array: both keys are
read with `.get`, so both are optional. -/
structure PhonRec where
  text : Option String
  audio : Option String
deriving DecidableEq, Repr

/-- One record of a part-of-speech group's `definitions` array.
`definition` is read with `["definition"]` (KeyError when absent); the other
keys are read with `.get`. -/
structure DefRec where
  definition : Option String
  example' : Option String
  synonyms : Option (List String)
  antonyms : Option (List String)
deriving DecidableEq, Repr

/-- One entry of the formal dictionary's `meanings` array:
`partOfSpeech` via `.get`, `definitions` via `["definitions"]`. -/
structure MeaningGroup where
  partOfSpeech : Option String
  definitions : Option (List DefRec)
deriving DecidableEq, Repr

/-- One per-headword entry of the formal dictionary response body:
`word` via `["word"]`, `phonetics` via `.get`, `meanings` via
`["meanings"]`. -/
structure DictEntry where
  word : Option String
  phonetics : Option (List PhonRec)
  meanings : Option (List MeaningGroup)
deriving DecidableEq, Repr

/-- One entry of the Urban Dictionary `list` array: `word` and `definition`
are read with `[...]`, `example` with `.get`. -/
structure UDEntry where
  word : Option String
  definition : Option String
  example' : Option String
deriving DecidableEq, Repr

/-- The Urban Dictionary response body: an object whose `list` key is read
with `.get("list")`. -/
structure UDResponse where
  list : Option (List UDEntry)
deriving DecidableEq, Repr

/-- One field of a Discord embed (`embed.add_field`). -/
structure EmbedField where
  name : String
  value : String
deriving DecidableEq, Repr

/-- The parts of a `discord.Embed` that the module sets. -/
structure Embed where
  title : String
  description : Option String
  colour : Nat
  fields : List EmbedField
  footer : Option String
deriving DecidableEq, Repr

/-- What the `define` command replies with: either a plain text message or an
embed together with the flag that says whether the `AuthorDeleteView` delete
control is attached. -/
inductive Reply where
  | text : String → Reply
  | embedR : Embed → Bool → Reply
deriving DecidableEq, Repr

/-! ## Python helper semantics -/

/-- Truthiness of an optional Python string: `None` and `""` are falsy. -/
def truthyS : Option String → Bool
  | none => false
  | some s => !(s == "")

/-- Python `x or None` for an optional string (`definition.get("example") or
None`): falsy values collapse to `None`. -/
def pyOrNone : Option String → Option String
  | none => none
  | some s => if s == "" then none else some s

/-- Python `x or []` for an optional list (`definition.get("synonyms") or
[]`). -/
def pyOrEmpty : Option (List String) → List String
  | none => []
  | some l => l

/-- Python `x or d` for an optional string against a string default
(`word_data.get("example") or ""`, `meaning.word_class or "Meaning 1"`). -/
def pyStrOr : Option String → String → String
  | none, d => d
  | some s, d => if s == "" then d else s

/-- Python `s or None` for a plain string. -/
def pyStrOrNone (s : String) : Option String :=
  if s == "" then none else some s

/-- ASCII model of Python `str.lower` on one character. -/
def pyLowerC (c : Char) : Char :=
  if 65 ≤ c.toNat ∧ c.toNat ≤ 90 then Char.ofNat (c.toNat + 32) else c

/-- ASCII model of an upper-case character (used to state that normalizer
output is lower case). -/
def pyIsUpper (c : Char) : Bool :=
  65 ≤ c.toNat && c.toNat ≤ 90

/-- Model of Python `str.lower`. -/
def pyLowerS (s : String) : String :=
  ⟨s.data.map pyLowerC⟩

/-- Model of Python `str.strip`: drop leading and trailing whitespace. -/
def pyStrip (s : String) : String :=
  ⟨((s.data.dropWhile Char.isWhitespace).reverse.dropWhile Char.isWhitespace).reverse⟩

/-! ## Text normalizer (`clean_for_url`, line 44–45) -/

/-- `clean_for_url`: keep only alphanumeric/whitespace characters of the
lower-cased, stripped input. -/
def clean_for_url (word : String) : String :=
  ⟨(pyStrip (pyLowerS word)).data.filter fun c => c.isAlphanum || c.isWhitespace⟩

/-! ## Urban Dictionary bracket cleanup (`cleanup_ud_def`, line 103–105)

`re.sub(r"\[(.*?)]", r"\1", text)`: scanning left to right, each `[` that is
followed (with no intervening newline, since `.` does not match `\n`) by a
`]` is matched lazily up to the *first* such `]`; the match is replaced by
the inner text and scanning resumes after it. -/

/-- Find the first `]` in the list, provided no newline occurs before it.
Returns the characters before it and the characters after it. -/
def findClose : List Char → Option (List Char × List Char)
  | [] => none
  | c :: rest =>
    if c = ']' then some ([], rest)
    else if c = '\n' then none
    else match findClose rest with
      | some (inner, after) => some (c :: inner, after)
      | none => none

/-- The character-list core of `cleanup_ud_def`.  Recursion is driven by a
fuel argument so that the function reduces definitionally; by
`findClose_length` the remaining input gets strictly shorter at every step,
so any fuel of at least the input's length never runs out (the fuel-0 case
is unreachable then, see `stripBrackets_noBracket` for a use of this
invariant). -/
def stripBrackets : Nat → List Char → List Char
  | _, [] => []
  | 0, cs => cs
  | fuel + 1, c :: rest =>
    if c = '[' then
      match findClose rest with
      | some (inner, after) => inner ++ stripBrackets fuel after
      | none => c :: stripBrackets fuel rest
    else c :: stripBrackets fuel rest

/-- `cleanup_ud_def`: strip `[...]` cross-reference markup, keeping the inner
text. -/
def cleanup_ud_def (text : String) : String :=
  ⟨stripBrackets text.data.length text.data⟩

/-! ## Formal dictionary adapter (`get_dictionary_def`, line 53–91)

The HTTP layer is a collaborator: the adapter is modelled from the point
where the response status (`ok`) and parsed JSON body (`data`, with a `null`
or empty body collapsed to `[]`, both being falsy) are available.  The
queried word is only used to build the URL, so it does not appear. -/

/-- The sort key of one phonetics record:
`(bool(x.get("text")) * 2) + bool(x.get("audio") * 1)`.
When the `audio` key is absent, `x.get("audio")` is `None` and `None * 1`
raises `TypeError`. -/
def phonKey (p : PhonRec) : Except PyErr Nat :=
  match p.audio with
  | none => .error .typeError
  | some a => .ok ((if truthyS p.text then 2 else 0) + (if a == "" then 0 else 1))

/-- Compute the sort key of every phonetics record, in order (as `sorted`
does while decorating); the first failure aborts. -/
def keyedPhon : List PhonRec → Except PyErr (List (Nat × PhonRec))
  | [] => .ok []
  | p :: rest =>
    match phonKey p with
    | .error err => .error err
    | .ok k =>
      match keyedPhon rest with
      | .error err => .error err
      | .ok ks => .ok ((k, p) :: ks)

/-- Stable insertion for a descending sort: a new element goes after every
element with a strictly greater key and before the first element whose key
is less than or equal (so earlier elements win ties, as Python's stable
`sorted(..., reverse=True)` does). -/
def insertDesc (p : Nat × PhonRec) : List (Nat × PhonRec) → List (Nat × PhonRec)
  | [] => [p]
  | q :: rest => if q.1 > p.1 then q :: insertDesc p rest else p :: q :: rest

/-- Stable descending sort by key, modelling `sorted(..., reverse=True)`. -/
def sortDesc : List (Nat × PhonRec) → List (Nat × PhonRec)
  | [] => []
  | p :: rest => insertDesc p (sortDesc rest)

/-- One `Meaning` per record of a group's `definitions` array.
`definition["definition"]` raises `KeyError` when absent. -/
def processDefs (pos : Option String) : List DefRec → Except PyErr (List Meaning)
  | [] => .ok []
  | d :: rest =>
    match d.definition with
    | none => .error (.keyError "definition")
    | some s =>
      match processDefs pos rest with
      | .error err => .error err
      | .ok ms =>
        .ok (⟨pos, s, pyOrNone d.example', pyOrEmpty d.synonyms, pyOrEmpty d.antonyms⟩ :: ms)

/-- Flatten the part-of-speech groups of one entry.
`meaning["definitions"]` raises `KeyError` when absent. -/
def processGroups : List MeaningGroup → Except PyErr (List Meaning)
  | [] => .ok []
  | g :: rest =>
    match g.definitions with
    | none => .error (.keyError "definitions")
    | some ds =>
      match processDefs g.partOfSpeech ds with
      | .error err => .error err
      | .ok ms1 =>
        match processGroups rest with
        | .error err => .error err
        | .ok ms2 => .ok (ms1 ++ ms2)

/-- Map one formal-dictionary entry to a `Word`: phonetic selection first
(skipped when `word_data.get("phonetics")` is falsy), then the meanings loop
(`word_data["meanings"]` raises `KeyError` when absent), then
`word_data["word"]`. -/
def processEntry (e : DictEntry) : Except PyErr Word :=
  let phonStep : Except PyErr (Option String × Option String) :=
    match e.phonetics with
    | some (p :: ps) =>
      match keyedPhon (p :: ps) with
      | .error err => .error err
      | .ok ks =>
        match sortDesc ks with
        | [] => .error .indexError
        | (_, top) :: _ => .ok (top.text, top.audio)
    | _ => .ok (none, none)
  match phonStep with
  | .error err => .error err
  | .ok (pstr, paudio) =>
    match e.meanings with
    | none => .error (.keyError "meanings")
    | some groups =>
      match processGroups groups with
      | .error err => .error err
      | .ok ms =>
        match e.word with
        | none => .error (.keyError "word")
        | some w => .ok ⟨w, pstr, paudio, ms⟩

/-- The `for word_data in data` loop, appending one `Word` per entry. -/
def processEntries : List DictEntry → Except PyErr (List Word)
  | [] => .ok []
  | e :: rest =>
    match processEntry e with
    | .error err => .error err
    | .ok w =>
      match processEntries rest with
      | .error err => .error err
      | .ok ws => .ok (w :: ws)

/-- `get_dictionary_def` after the HTTP call: `none` is Python `None`
("no result"). -/
def get_dictionary_def (ok : Bool) (data : List DictEntry) :
    Except PyErr (Option (List Word)) :=
  if !ok then .ok none
  else if data.isEmpty then .ok none
  else
    match processEntries data with
    | .error err => .error err
    | .ok ws => .ok (if ws.isEmpty then none else some ws)

/-! ## Urban Dictionary adapter (`get_urban_dictionary_def`, line 93–123) -/

/-- The list comprehension of `get_urban_dictionary_def`: for each entry,
evaluate the case-insensitive headword filter (`word_data["word"]` raises
`KeyError` when absent), and for kept entries build the `Meaning`
(`word_data["definition"]` raises `KeyError` when absent).  `q` is the
already-cleaned query word. -/
def processUD (q : String) : List UDEntry → Except PyErr (List Meaning)
  | [] => .ok []
  | e :: rest =>
    match e.word with
    | none => .error (.keyError "word")
    | some w =>
      if pyLowerS w = pyLowerS q then
        match e.definition with
        | none => .error (.keyError "definition")
        | some d =>
          match processUD q rest with
          | .error err => .error err
          | .ok ms =>
            .ok (⟨none, cleanup_ud_def d,
                  pyStrOrNone (cleanup_ud_def (pyStrOr e.example' "")), [], []⟩ :: ms)
      else processUD q rest

/-- `get_urban_dictionary_def` after the HTTP call: `ok` is the response
status, `body` the parsed JSON body (`none` when falsy), and `word` the raw
query (cleaned on entry as in the source).  A falsy `data.get("list")`
(absent key or empty array) is "no result". -/
def get_urban_dictionary_def (ok : Bool) (body : Option UDResponse) (word : String) :
    Except PyErr (Option (List Word)) :=
  let word := clean_for_url word
  if !ok then .ok none
  else
    match body with
    | none => .ok none
    | some resp =>
      match resp.list with
      | none => .ok none
      | some [] => .ok none
      | some (first :: rest) =>
        match processUD word (first :: rest) with
        | .error err => .error err
        | .ok ms =>
          if ms.isEmpty then .ok none
          else
            match first.word with
            | none => .error (.keyError "word")
            | some w0 => .ok (some [⟨w0, none, none, ms⟩])

/-! ## Presentation builder (`build_word_embed`, line 125–172) -/

/-- `get_phonetic` inside `build_word_embed`: the embed description.
(The `getD ""` reads are only reached when the corresponding option is
truthy, hence `some`.) -/
def get_phonetic (w : Word) : Option String :=
  if truthyS w.phonetic_str && truthyS w.phonetic_audio_url then
    some ("[`" ++ w.phonetic_str.getD "" ++ "`](" ++ w.phonetic_audio_url.getD "" ++ ")")
  else if truthyS w.phonetic_str && !truthyS w.phonetic_audio_url then
    some ("`" ++ w.phonetic_str.getD "" ++ "`")
  else if !truthyS w.phonetic_str && truthyS w.phonetic_audio_url then
    some ("[Pronunciation](" ++ w.phonetic_audio_url.getD "" ++ ")")
  else none

/-- `field_text`: render one meaning's section body; lines for falsy
example/synonyms/antonyms are omitted; bodies longer than 1024 characters
are cut to 1021 characters plus `"..."`. -/
def field_text (m : Meaning) : String :=
  let lines : List (Option String) := [
    some ("**Definition:** " ++ m.definition),
    (match m.example' with
     | some s => if s == "" then none else some ("**Example:** " ++ s)
     | none => none),
    (if m.synonyms.isEmpty then none else
      some ("**Synonyms:** " ++ String.intercalate ", " m.synonyms)),
    (if m.antonyms.isEmpty then none else
      some ("**Antonyms:** " ++ String.intercalate ", " m.antonyms))]
  let def_str := String.intercalate "\n" (lines.filterMap id)
  if def_str.length > 1024 then (def_str.take (1024 - 3)) ++ "..." else def_str

/-- The `for meaning in word.meanings[1:]` loop: starting from the
unconditionally included first body, append each later body only when the
sum of the lengths of the already-included bodies plus its own length stays
within `maxLen`; the loop continues either way (there is no `break`). -/
def buildFields (maxLen : Nat) : List Meaning → List String → List String
  | [], fields => fields
  | m :: rest, fields =>
    if (fields.map String.length).sum + (field_text m).length ≤ maxLen then
      buildFields maxLen rest (fields ++ [field_text m])
    else
      buildFields maxLen rest fields

/-- `build_word_embed`: `word.meanings[0]` raises `IndexError` on a `Word`
with no meanings.  With several selected sections, `zip(word.meanings,
fields)` is enumerated from 1 and each field is named after the meaning at
the *same index as the field*; with one section, `fields[0]` (always the
first meaning's body, written `headD` since `fields` provably starts with
it) is named after the first meaning. -/
def build_word_embed (w : Word) (maxLen : Nat) : Except PyErr Embed :=
  match w.meanings with
  | [] => .error .indexError
  | m0 :: rest =>
    let fields := buildFields maxLen rest [field_text m0]
    let embedFields :=
      if fields.length > 1 then
        (List.enumFrom 1 (w.meanings.zip fields)).map fun p =>
          ⟨pyStrOr p.2.1.word_class ("Meaning " ++ toString p.1), p.2.2⟩
      else
        [⟨pyStrOr m0.word_class "Meaning", fields.headD ""⟩]
    .ok ⟨w.word, get_phonetic w, 0x5865F2, embedFields, none⟩

/-! ## Orchestrator (`normal_embed`, `urban_dictionary_embed`, `define`,
line 174–218) -/

/-- `normal_embed`: first formal-dictionary `Word` (the falsy check covers
both `None` and an empty list) rendered with the Dictionary API footer. -/
def normal_embed (ok : Bool) (data : List DictEntry) (maxLen : Nat) :
    Except PyErr (Option Embed) :=
  match get_dictionary_def ok data with
  | .error err => .error err
  | .ok none => .ok none
  | .ok (some []) => .ok none
  | .ok (some (w :: _)) =>
    match build_word_embed w maxLen with
    | .error err => .error err
    | .ok e => .ok (some { e with footer := some "Definitions sourced from Dictionary API" })

/-- `urban_dictionary_embed`: first Urban Dictionary `Word` rendered with
the Urban Dictionary colour and footer. -/
def urban_dictionary_embed (ok : Bool) (body : Option UDResponse) (word : String)
    (maxLen : Nat) : Except PyErr (Option Embed) :=
  match get_urban_dictionary_def ok body word with
  | .error err => .error err
  | .ok none => .ok none
  | .ok (some []) => .ok none
  | .ok (some (w :: _)) =>
    match build_word_embed w maxLen with
    | .error err => .error err
    | .ok e =>
      .ok (some { e with colour := 0xEFFF00,
                         footer := some "Definitions sourced from Urban Dictionary" })

/-- The final `ctx.reply`: "No definitions found" text when no embed was
built, otherwise the embed with the delete control attached exactly when
`deletable` is set. -/
def sendEmbed (embed : Option Embed) (deletable : Bool) : Except PyErr Reply :=
  match embed with
  | none => .ok (.text "No definitions found for that word")
  | some e => .ok (.embedR e deletable)

/-- The `define` command, parameterized by the raw query, the `urban` flag,
both HTTP responses (status and parsed body for each source) and the
`max_meanings_length` setting.  Mirrors the mutable `deletable`/`embed`
flow of the source: `deletable` becomes true as soon as the Urban
Dictionary branch runs, and is *not* reset when that branch yields nothing
and the formal dictionary is consulted as a fallback. -/
def define (query : String) (urban : Bool) (fOk : Bool) (fData : List DictEntry)
    (uOk : Bool) (uBody : Option UDResponse) (maxLen : Nat) : Except PyErr Reply :=
  let query := pyStrip query
  if query = "" then .ok (.text "You need to provide a word to define")
  else
    match (if urban then Except.ok none else normal_embed fOk fData maxLen) with
    | .error err => .error err
    | .ok embed0 =>
      if urban || embed0.isNone then
        match urban_dictionary_embed uOk uBody query maxLen with
        | .error err => .error err
        | .ok embed1 =>
          if urban && embed1.isNone then
            match normal_embed fOk fData maxLen with
            | .error err => .error err
            | .ok embed2 => sendEmbed embed2 true
          else sendEmbed embed1 true
      else sendEmbed embed0 false

/-! ## Concrete test data used by the claim theorems -/

/-- A class-less meaning whose rendered section body has length 40
(16 characters of `**Definition:** ` plus 24). -/
def cBody40 : Meaning := ⟨none, "abcdefghijklmnopqrstuvwx", none, [], []⟩

/-- A "verb" meaning whose rendered section body has length 80. -/
def cVerb80 : Meaning :=
  ⟨some "verb",
   "abcdefghijklmnopqrstuvwxyzabcdefghijklmnopqrstuvwxyzabcdefghijkl", none, [], []⟩

/-- A "noun" meaning whose rendered section body has length 30. -/
def cNoun30 : Meaning := ⟨some "noun", "abcdefghijklmn", none, [], []⟩

/-- A well-formed formal-dictionary entry for "test" with one noun
definition and no phonetics. -/
def cEntry : DictEntry :=
  ⟨some "test", none, some [⟨some "noun", some [⟨some "a procedure", none, none, none⟩]⟩]⟩

/-- The embed `define` builds from `cEntry` via the formal dictionary. -/
def cFormalEmbed : Embed :=
  ⟨"test", none, 0x5865F2, [⟨"noun", "**Definition:** a procedure"⟩],
   some "Definitions sourced from Dictionary API"⟩

/-! ## Spec-side definitions used to state amended claims -/

/-- Well-formed slang response entries: the `word` and `definition` keys the
adapter reads with `[...]` are present. -/
def UDwf (entries : List UDEntry) : Prop :=
  ∀ e ∈ entries, e.word ≠ none ∧ e.definition ≠ none

/-- Spec-side rendering of one kept slang entry: no word class, no
synonyms/antonyms, bracket-cleaned definition, bracket-cleaned example
normalized to `none` when falsy. -/
def slangSpecMeaning (e : UDEntry) : Meaning :=
  ⟨none, cleanup_ud_def (e.definition.getD ""),
   pyStrOrNone (cleanup_ud_def (pyStrOr e.example' "")), [], []⟩

/-- Spec-side filter: keep entries whose headword matches the cleaned query
case-insensitively. -/
def slangSpecKeeps (cleaned : String) (e : UDEntry) : Bool :=
  pyLowerS (e.word.getD "") == pyLowerS cleaned

/-- The amended slang-adapter contract, written from the spec's words with
just the correction the counterexample forces: all kept entries collapse
into a single `Word` with one `Meaning` per kept entry and absent phonetic
fields, whose headword is the original-case headword of the *first entry of
the response list* (not of the first kept entry); no surviving entry means
"no result". -/
def slangSpec (q : String) (entries : List UDEntry) : Option (List Word) :=
  match entries with
  | [] => none
  | first :: _ =>
    let kept := entries.filter (slangSpecKeeps (clean_for_url q))
    if kept.isEmpty then none
    else some [⟨first.word.getD "", none, none, kept.map slangSpecMeaning⟩]

/-- A formal-dictionary entry that lacks a `meanings` section, or carries a
definition record that lacks its `definition` text. -/
def ShapeDefect (e : DictEntry) : Prop :=
  e.meanings = none ∨
  ∃ gs, e.meanings = some gs ∧
    ∃ g ∈ gs, ∃ ds, g.definitions = some ds ∧ ∃ d ∈ ds, d.definition = none

/-- Spec-side restatement of the amended budget rule: starting from the
unconditionally included first body, each later body is included exactly
when the total length of the bodies included so far plus its own length
stays within the budget, and an overflowing body is skipped while later
bodies are still considered. -/
def selectBodies (maxLen : Nat) : List String → List String → List String
  | included, [] => included
  | included, b :: bs =>
    if (included.map String.length).sum + b.length ≤ maxLen then
      selectBodies maxLen (included ++ [b]) bs
    else
      selectBodies maxLen included bs

/-- Spec-side positional labeling: the k-th selected body (counting from
`n`) is paired with the k-th meaning of the list, labeled by that meaning's
word class or `Meaning` followed by the counter. -/
def labelSections : List Meaning → List String → Nat → List EmbedField
  | m :: ms, b :: bs, n =>
    ⟨pyStrOr m.word_class ("Meaning " ++ toString n), b⟩ :: labelSections ms bs (n + 1)
  | _, _, _ => []

/-! ## General lemmas -/

theorem findClose_length :
    ∀ cs inner after, findClose cs = some (inner, after) → after.length < cs.length := by
  intro cs
  induction cs with
  | nil => intro inner after h; simp [findClose] at h
  | cons c rest ih =>
    intro inner after h
    simp only [findClose] at h
    split at h
    · cases h
      simp
    · split at h
      · cases h
      · revert h
        split
        · rename_i inner' after' heq
          intro h
          cases h
          exact Nat.lt_succ_of_lt (ih _ _ heq)
        · intro h; cases h

/-! ## C8 — text normalizer -/

theorem pyLowerC_not_upper (c : Char) : pyIsUpper (pyLowerC c) = false := by
  simp only [pyLowerC]
  by_cases h : 65 ≤ c.toNat ∧ c.toNat ≤ 90
  · rw [if_pos h]
    obtain ⟨h1, h2⟩ := h
    simp only [pyIsUpper]
    generalize c.toNat = n at h1 h2 ⊢
    interval_cases n <;> decide
  · rw [if_neg h]
    simp only [pyIsUpper, Bool.and_eq_false_iff, decide_eq_false_iff_not]
    omega

theorem mem_clean_for_url (w : String) (c : Char) (hc : c ∈ (clean_for_url w).data) :
    c ∈ w.data.map pyLowerC := by
  simp only [clean_for_url] at hc
  have h1 : c ∈ (pyStrip (pyLowerS w)).data := (List.filter_sublist _).subset hc
  simp only [pyStrip] at h1
  rw [List.mem_reverse] at h1
  have h2 := (List.dropWhile_sublist _).subset h1
  rw [List.mem_reverse] at h2
  have h3 := (List.dropWhile_sublist _).subset h2
  simpa [pyLowerS] using h3

/-- C8: for every input string, `clean_for_url`'s output contains only
alphanumeric/whitespace characters, contains no upper-case character, and is
a subsequence of the stripped lower-cased input; `clean_for_url` maps
`can<apostrophe>t` (spelled with `Char.ofNat 39`) to `cant` and the empty
string to the empty string. -/
theorem c8_normalizer (w : String) :
    (∀ c ∈ (clean_for_url w).data, (c.isAlphanum || c.isWhitespace) = true) ∧
    (∀ c ∈ (clean_for_url w).data, pyIsUpper c = false) ∧
    (clean_for_url w).data.Sublist (pyStrip (pyLowerS w)).data ∧
    clean_for_url (String.mk ['c', 'a', 'n', Char.ofNat 39, 't']) = "cant" ∧
    clean_for_url "" = "" := by
  refine ⟨?_, ?_, ?_, by decide, by decide⟩
  · intro c hc
    simp only [clean_for_url] at hc
    exact (List.mem_filter.mp hc).2
  · intro c hc
    obtain ⟨c', _, rfl⟩ := List.mem_map.mp (mem_clean_for_url w c hc)
    exact pyLowerC_not_upper c'
  · simp only [clean_for_url]
    exact List.filter_sublist _

/-- Witness for `c8_normalizer` at concrete inputs. -/
theorem c8_normalizer_witness :
    pyIsUpper 'a' = false ∧
    (clean_for_url "Ab").data.Sublist (pyStrip (pyLowerS "Ab")).data :=
  ⟨(c8_normalizer "Ab").2.1 'a' (by decide), (c8_normalizer "Ab").2.2.1⟩

/-! ## C9 — Urban Dictionary bracket cleanup -/

theorem stripBrackets_noBracket :
    ∀ (cs : List Char) (fuel : Nat), ('[') ∉ cs → stripBrackets fuel cs = cs := by
  intro cs
  induction cs with
  | nil => intro fuel _; cases fuel <;> rfl
  | cons c rest ih =>
    intro fuel h
    have hc : ¬c = '[' := fun hc => h (hc ▸ List.mem_cons_self c rest)
    have hrest : ('[') ∉ rest := fun hr => h (List.mem_cons_of_mem c hr)
    cases fuel with
    | zero => rfl
    | succ fuel =>
      simp only [stripBrackets, if_neg hc]
      rw [ih fuel hrest]

/-- C9 counterexample: on the nested-bracket input `[[a]]` the cleanup is
*not* a no-op — the lazy match `\[(.*?)]` consumes the outer `[` together
with the first `]`, producing `[a]`. -/
theorem c9_counterexample :
    cleanup_ud_def "[[a]]" = "[a]" ∧ cleanup_ud_def "[[a]]" ≠ "[[a]]" := by decide

/-- C9 as amended: the cleanup strips each leftmost-shortest
bracket-delimited segment keeping the inner text (so
`This is [linked] text` becomes `This is linked text`); text containing no
`[` at all is left unchanged; on nested brackets it is *not* a no-op: the
matched bracket pair is removed, e.g. `[[a]]` becomes `[a]`. -/
theorem c9_amended :
    cleanup_ud_def "This is [linked] text" = "This is linked text" ∧
    (∀ t : String, ('[') ∉ t.data → cleanup_ud_def t = t) ∧
    cleanup_ud_def "[[a]]" = "[a]" := by
  refine ⟨by decide, ?_, by decide⟩
  intro t ht
  simp only [cleanup_ud_def]
  rw [stripBrackets_noBracket t.data t.data.length ht]

/-- Witness for `c9_amended` on a bracket-free input. -/
theorem c9_amended_witness : cleanup_ud_def "abc" = "abc" :=
  c9_amended.2.1 "abc" (by decide)

/-! ## C4 — phonetic ranking (code bug) -/

/-- C4: on a phonetics record that carries transcription text but no
`audio` key, the sort key `bool(x.get("text")) * 2 + bool(x.get("audio") * 1)`
evaluates `None * 1` and raises `TypeError`, so the whole adapter call
fails instead of selecting the record (which the claim says scores 2 and
wins).  The entry is otherwise perfectly well formed. -/
theorem c4_missing_audio_raises :
    get_dictionary_def true [⟨some "a", some [⟨some "/a/", none⟩],
      some [⟨some "noun", some [⟨some "d", none, none, none⟩]⟩]⟩] =
    .error .typeError := by decide

/-! ## C3 — zero-meanings invariant -/

/-- C3 counterexample: a formal-dictionary entry whose `meanings` key is
present but an empty list is neither dropped nor an error: the adapter
returns a `Word` with zero meanings. -/
theorem c3_counterexample :
    get_dictionary_def true [⟨some "x", none, some []⟩] =
      .ok (some [⟨"x", none, none, []⟩]) ∧
    (⟨"x", none, none, []⟩ : Word).meanings = [] := by decide

/-- C3 as amended: the slang adapter never returns a `Word` with zero
meanings (the `if meanings` guard), and the formal adapter raises `KeyError`
on an entry with *no* `meanings` key; but a formal entry whose `meanings`
list is present and empty yields a `Word` with zero meanings, so the
invariant fails there. -/
theorem c3_amended :
    (∀ (ok : Bool) (body : Option UDResponse) (q : String) (ws : List Word),
        get_urban_dictionary_def ok body q = .ok (some ws) →
        ∀ x ∈ ws, x.meanings ≠ []) ∧
    get_dictionary_def true [⟨some "test", none, none⟩] = .error (.keyError "meanings") ∧
    get_dictionary_def true [⟨some "x", none, some []⟩] =
      .ok (some [⟨"x", none, none, []⟩]) := by
  refine ⟨?_, by decide, by decide⟩
  intro ok body q ws h x hx
  simp only [get_urban_dictionary_def] at h
  split at h
  · simp at h
  · split at h
    · simp at h
    · split at h
      · simp at h
      · simp at h
      · rename_i first rest
        split at h
        · simp at h
        · rename_i ms hms
          split at h
          · simp at h
          · split at h
            · simp at h
            · rename_i hnot _ w0 _
              simp only [Except.ok.injEq, Option.some.injEq] at h
              subst h
              simp only [List.mem_singleton] at hx
              subst hx
              simpa [List.isEmpty_iff] using hnot

/-- Witness for the slang half of `c3_amended` at a concrete response. -/
theorem c3_amended_witness :
    (⟨"Test", none, none, [⟨none, "b", none, [], []⟩]⟩ : Word).meanings ≠ [] :=
  c3_amended.1 true (some ⟨some [⟨some "Test", some "b", none⟩]⟩) "test"
    [⟨"Test", none, none, [⟨none, "b", none, [], []⟩]⟩]
    (by decide) _ (by simp)

/-! ## C7 — slang adapter shape -/

/-- C7 counterexample: the service returns the near-match `testing` first
and the exact match `Test` second.  Only `Test` survives the filter, yet
the collapsed `Word`'s headword is `data[0]["word"] = "testing"` — the
first entry of the *unfiltered* response, not the first kept entry. -/
theorem c7_counterexample :
    get_urban_dictionary_def true
      (some ⟨some [⟨some "testing", some "a", none⟩, ⟨some "Test", some "b", none⟩]⟩)
      "test" =
    .ok (some [⟨"testing", none, none, [⟨none, "b", none, [], []⟩]⟩]) ∧
    ("testing" : String) ≠ "Test" := by decide

theorem processUD_wf (q : String) :
    ∀ (l : List UDEntry), UDwf l →
      processUD q l = .ok ((l.filter (slangSpecKeeps q)).map slangSpecMeaning) := by
  intro l
  induction l with
  | nil => intro _; rfl
  | cons e rest ih =>
    intro hwf
    obtain ⟨hw, hd⟩ := hwf e (List.mem_cons_self e rest)
    have hwfRest : UDwf rest := fun x hx => hwf x (List.mem_cons_of_mem e hx)
    obtain ⟨w, hw⟩ := Option.ne_none_iff_exists'.mp hw
    obtain ⟨d, hd⟩ := Option.ne_none_iff_exists'.mp hd
    simp only [processUD, hw, hd, List.filter_cons, slangSpecKeeps, Option.getD_some]
    by_cases hmatch : pyLowerS w = pyLowerS q
    · rw [if_pos hmatch, ih hwfRest]
      have hbeq : (pyLowerS w == pyLowerS q) = true := beq_iff_eq.mpr hmatch
      rw [hbeq]
      simp [slangSpecMeaning, hd]
    · rw [if_neg hmatch, ih hwfRest]
      have hbeq : (pyLowerS w == pyLowerS q) = false := beq_eq_false_iff_ne.mpr hmatch
      rw [hbeq]
      simp

/-- C7 as amended: on a successful response whose entries all carry their
required keys, the adapter returns exactly the spec-side `slangSpec`
result. -/
theorem c7_amended (q : String) (entries : List UDEntry) (hwf : UDwf entries) :
    get_urban_dictionary_def true (some ⟨some entries⟩) q = .ok (slangSpec q entries) := by
  cases entries with
  | nil => rfl
  | cons first rest =>
    obtain ⟨hw, _⟩ := hwf first (List.mem_cons_self first rest)
    obtain ⟨w0, hw0⟩ := Option.ne_none_iff_exists'.mp hw
    simp only [get_urban_dictionary_def, slangSpec, Bool.not_true, Bool.false_eq_true,
      if_false, processUD_wf (clean_for_url q) (first :: rest) hwf, hw0, Option.getD_some]
    by_cases hk : ((first :: rest).filter (slangSpecKeeps (clean_for_url q))).isEmpty
    · rw [if_pos (by simpa using hk), if_pos hk]
    · rw [if_neg (by simpa using hk), if_neg hk]

/-- Witness for `c7_amended` at a concrete response. -/
theorem c7_amended_witness :
    get_urban_dictionary_def true (some ⟨some [⟨some "Test", some "b", none⟩]⟩) "test" =
      .ok (slangSpec "test" [⟨some "Test", some "b", none⟩]) :=
  c7_amended "test" [⟨some "Test", some "b", none⟩]
    (by intro e he; simp at he; subst he; exact ⟨by simp, by simp⟩)

/-! ## C10 — `example` is never the empty string -/

theorem pyOrNone_ne_some_empty (o : Option String) : pyOrNone o ≠ some "" := by
  cases o with
  | none => simp [pyOrNone]
  | some s =>
    simp only [pyOrNone]
    split
    · simp
    · rename_i h
      intro hc
      cases hc
      simp at h

theorem pyStrOrNone_ne_some_empty (s : String) : pyStrOrNone s ≠ some "" := by
  simp only [pyStrOrNone]
  split
  · simp
  · rename_i h
    intro hc
    cases hc
    simp at h

theorem processDefs_example (pos : Option String) :
    ∀ (ds : List DefRec) (ms : List Meaning), processDefs pos ds = .ok ms →
      ∀ m ∈ ms, m.example' ≠ some "" := by
  intro ds
  induction ds with
  | nil => intro ms h; cases h; simp
  | cons d rest ih =>
    intro ms h
    simp only [processDefs] at h
    split at h
    · cases h
    · split at h
      · cases h
      · rename_i ms' hrest
        cases h
        intro m hm
        rcases List.mem_cons.mp hm with hm | hm
        · subst hm; exact pyOrNone_ne_some_empty _
        · exact ih ms' hrest m hm

theorem processGroups_example :
    ∀ (gs : List MeaningGroup) (ms : List Meaning), processGroups gs = .ok ms →
      ∀ m ∈ ms, m.example' ≠ some "" := by
  intro gs
  induction gs with
  | nil => intro ms h; cases h; simp
  | cons g rest ih =>
    intro ms h
    simp only [processGroups] at h
    split at h
    · cases h
    · split at h
      · cases h
      · rename_i ms1 h1
        split at h
        · cases h
        · rename_i ms2 h2
          cases h
          intro m hm
          rcases List.mem_append.mp hm with hm | hm
          · exact processDefs_example _ _ ms1 h1 m hm
          · exact ih ms2 h2 m hm

theorem processEntry_example (e : DictEntry) (w : Word) (h : processEntry e = .ok w) :
    ∀ m ∈ w.meanings, m.example' ≠ some "" := by
  simp only [processEntry] at h
  split at h
  · cases h
  · split at h
    · cases h
    · split at h
      · cases h
      · rename_i ms hms
        split at h
        · cases h
        · cases h
          exact processGroups_example _ ms hms

theorem processEntries_example :
    ∀ (data : List DictEntry) (ws : List Word), processEntries data = .ok ws →
      ∀ w ∈ ws, ∀ m ∈ w.meanings, m.example' ≠ some "" := by
  intro data
  induction data with
  | nil => intro ws h; cases h; simp
  | cons e rest ih =>
    intro ws h
    simp only [processEntries] at h
    split at h
    · cases h
    · rename_i w hw
      split at h
      · cases h
      · rename_i ws' hws
        cases h
        intro x hx
        rcases List.mem_cons.mp hx with hx | hx
        · subst hx; exact processEntry_example e x hw
        · exact ih ws' hws x hx

theorem processUD_example (q : String) :
    ∀ (l : List UDEntry) (ms : List Meaning), processUD q l = .ok ms →
      ∀ m ∈ ms, m.example' ≠ some "" := by
  intro l
  induction l with
  | nil => intro ms h; cases h; simp
  | cons e rest ih =>
    intro ms h
    simp only [processUD] at h
    split at h
    · cases h
    · split at h
      · split at h
        · cases h
        · split at h
          · cases h
          · rename_i ms' hrest
            cases h
            intro m hm
            rcases List.mem_cons.mp hm with hm | hm
            · subst hm; exact pyStrOrNone_ne_some_empty _
            · exact ih ms' hrest m hm
      · exact ih ms h

/-- C10: every `Meaning` inside any `LookupResult` either adapter returns
has an `example` field that is absent or non-empty — an upstream example
that is missing or empty is normalized to `None` by the `or None`
coalescing, and the slang adapter additionally never lets the
bracket-cleanup produce an empty example string. -/
theorem c10_example_never_empty :
    (∀ (ok : Bool) (data : List DictEntry) (ws : List Word),
        get_dictionary_def ok data = .ok (some ws) →
        ∀ w ∈ ws, ∀ m ∈ w.meanings, m.example' ≠ some "") ∧
    (∀ (ok : Bool) (body : Option UDResponse) (q : String) (ws : List Word),
        get_urban_dictionary_def ok body q = .ok (some ws) →
        ∀ w ∈ ws, ∀ m ∈ w.meanings, m.example' ≠ some "") := by
  constructor
  · intro ok data ws h
    simp only [get_dictionary_def] at h
    split at h
    · simp at h
    · split at h
      · simp at h
      · split at h
        · simp at h
        · rename_i ws' hws
          split at h
          · simp at h
          · simp only [Except.ok.injEq, Option.some.injEq] at h
            subst h
            exact processEntries_example data ws' hws
  · intro ok body q ws h
    simp only [get_urban_dictionary_def] at h
    split at h
    · simp at h
    · split at h
      · simp at h
      · split at h
        · simp at h
        · simp at h
        · rename_i first rest
          split at h
          · simp at h
          · rename_i ms hms
            split at h
            · simp at h
            · split at h
              · simp at h
              · simp only [Except.ok.injEq, Option.some.injEq] at h
                subst h
                intro w hw
                simp only [List.mem_singleton] at hw
                subst hw
                exact processUD_example _ _ ms hms

/-- Witness for `c10_example_never_empty` at a concrete slang meaning whose
upstream example was the empty string. -/
theorem c10_example_never_empty_witness :
    (⟨none, "b", none, [], []⟩ : Meaning).example' ≠ some "" :=
  c10_example_never_empty.2 true (some ⟨some [⟨some "Test", some "b", some ""⟩]⟩) "test"
    [⟨"Test", none, none, [⟨none, "b", none, [], []⟩]⟩] (by decide)
    ⟨"Test", none, none, [⟨none, "b", none, [], []⟩]⟩ (by simp)
    ⟨none, "b", none, [], []⟩ (by simp)

/-! ## C2 — when the delete control is attached -/

/-- C2 counterexample: with `urban = true`, an Urban Dictionary response
with an empty result list, and a successful formal lookup, the reply embed
carries the Dictionary API footer (the final source is the formal
dictionary) yet the delete control *is* attached, because `deletable` was
set when the slang branch ran and is never reset. -/
theorem c2_counterexample :
    define "test" true true [cEntry] true (some ⟨some []⟩) 4000 =
      .ok (.embedR cFormalEmbed true) ∧
    cFormalEmbed.footer = some "Definitions sourced from Dictionary API" := by decide

/-- C2 as amended: whenever `define` replies with an embed, the delete
control is attached if and only if the Urban Dictionary branch ran — that
is, iff `urban` was set or the formal lookup produced no embed — regardless
of which source produced the embed that is finally sent. -/
theorem c2_amended (query : String) (urban fOk : Bool) (fData : List DictEntry)
    (uOk : Bool) (uBody : Option UDResponse) (maxLen : Nat) (e : Embed) (d : Bool)
    (h : define query urban fOk fData uOk uBody maxLen = .ok (.embedR e d)) :
    d = true ↔ (urban = true ∨ normal_embed fOk fData maxLen = .ok none) := by
  simp only [define] at h
  split at h
  · simp at h
  · cases urban with
    | true =>
      simp only [if_pos rfl] at h
      constructor
      · intro _; exact Or.inl rfl
      · intro _
        simp only [Bool.true_or, if_pos] at h
        split at h
        · cases h
        · rename_i embed1 _
          split at h
          · split at h
            · cases h
            · rename_i embed2 _
              simp only [sendEmbed] at h
              split at h
              · cases h
              · cases h; rfl
          · simp only [sendEmbed] at h
            split at h
            · cases h
            · cases h; rfl
    | false =>
      simp only [Bool.false_eq_true, if_false] at h
      split at h
      · cases h
      · rename_i embed0 hnormal
        simp only [Bool.false_or] at h
        by_cases h0 : embed0.isNone
        · rw [if_pos h0] at h
          split at h
          · cases h
          · rename_i embed1 _
            simp only [Bool.false_and, Bool.false_eq_true, if_false, sendEmbed] at h
            split at h
            · cases h
            · cases h
              constructor
              · intro _
                refine Or.inr ?_
                rw [hnormal]
                cases embed0 with
                | none => rfl
                | some _ => simp at h0
              · intro _; rfl
        · rw [if_neg h0] at h
          simp only [sendEmbed] at h
          split at h
          · cases h
          · cases h
            constructor
            · intro hc; cases hc
            · intro hc
              rcases hc with hc | hc
              · cases hc
              · rw [hnormal] at hc
                simp only [Except.ok.injEq] at hc
                simp at hc

/-- Witness for `c2_amended` at the `c2_counterexample` input: the control
is attached (`d = true`) and indeed `urban = true`. -/
theorem c2_amended_witness :
    (true = true ↔ (true = true ∨ normal_embed true [cEntry] 4000 = .ok none)) :=
  c2_amended "test" true true [cEntry] true (some ⟨some []⟩) 4000 cFormalEmbed true
    (by decide)

/-! ## C6 — upstream shape defects are hard errors -/

theorem exists_error_of_no_ok {α : Type} (e : Except PyErr α)
    (h : ∀ a, e ≠ .ok a) : ∃ err, e = .error err := by
  cases e with
  | error err => exact ⟨err, rfl⟩
  | ok a => exact absurd rfl (h a)

theorem processDefs_no_ok (pos : Option String) :
    ∀ (ds : List DefRec), (∃ d ∈ ds, d.definition = none) →
      ∀ ms, processDefs pos ds ≠ .ok ms := by
  intro ds
  induction ds with
  | nil => rintro ⟨d, hd, _⟩; cases hd
  | cons d rest ih =>
    rintro ⟨x, hx, hbad⟩ ms h
    simp only [processDefs] at h
    split at h
    · cases h
    · rename_i s hs
      split at h
      · cases h
      · rename_i ms' hrest
        rcases List.mem_cons.mp hx with hx | hx
        · rw [hx] at hbad; rw [hbad] at hs; cases hs
        · exact ih ⟨x, hx, hbad⟩ ms' hrest

theorem processGroups_no_ok :
    ∀ (gs : List MeaningGroup),
      (∃ g ∈ gs, ∃ ds, g.definitions = some ds ∧ ∃ d ∈ ds, d.definition = none) →
      ∀ ms, processGroups gs ≠ .ok ms := by
  intro gs
  induction gs with
  | nil => rintro ⟨g, hg, _⟩; cases hg
  | cons g rest ih =>
    rintro ⟨x, hx, ds, hds, hbad⟩ ms h
    simp only [processGroups] at h
    split at h
    · cases h
    · rename_i ds' hds'
      split at h
      · cases h
      · rename_i ms1 h1
        split at h
        · cases h
        · rename_i ms2 h2
          rcases List.mem_cons.mp hx with hx | hx
          · rw [hx] at hds
            rw [hds] at hds'
            cases hds'
            exact processDefs_no_ok g.partOfSpeech _ hbad ms1 h1
          · exact ih ⟨x, hx, ds, hds, hbad⟩ ms2 h2

theorem processEntry_no_ok (e : DictEntry) (hdef : ShapeDefect e) :
    ∀ w, processEntry e ≠ .ok w := by
  intro w h
  simp only [processEntry] at h
  split at h
  · cases h
  · split at h
    · cases h
    · rename_i gs hgs
      split at h
      · cases h
      · rename_i ms hms
        rcases hdef with hnone | ⟨gs', hgs', hbad⟩
        · rw [hnone] at hgs; cases hgs
        · rw [hgs'] at hgs
          cases hgs
          exact processGroups_no_ok _ hbad ms hms

theorem processEntries_defect :
    ∀ (data : List DictEntry) (e : DictEntry), e ∈ data → ShapeDefect e →
      ∃ err, processEntries data = .error err := by
  intro data
  induction data with
  | nil => intro e he; cases he
  | cons x rest ih =>
    intro e he hdef
    refine exists_error_of_no_ok _ ?_
    intro ws h
    simp only [processEntries] at h
    split at h
    · cases h
    · rename_i w hw
      split at h
      · cases h
      · rename_i ws' hws
        rcases List.mem_cons.mp he with he | he
        · rw [he] at hdef
          exact processEntry_no_ok x hdef w hw
        · obtain ⟨err, herr⟩ := ih e he hdef
          rw [herr] at hws
          cases hws

/-- C6: a successful formal-dictionary response containing an entry without
a `meanings` section, or with a definition record without `definition`
text, makes the adapter raise (a `KeyError`-style hard failure, or the
phonetics `TypeError` if that fires first) rather than return "no result";
and on the formal-first path the `define` orchestrator propagates that
error without ever consulting the slang source — the reply is the same
error for every possible slang response. -/
theorem c6_shape_error (query : String) (fData : List DictEntry) (ent : DictEntry)
    (maxLen : Nat) (hmem : ent ∈ fData) (hdef : ShapeDefect ent)
    (hq : pyStrip query ≠ "") :
    ∃ err, get_dictionary_def true fData = .error err ∧
      ∀ (uOk : Bool) (uBody : Option UDResponse),
        define query false true fData uOk uBody maxLen = .error err := by
  obtain ⟨err, herr⟩ := processEntries_defect fData ent hmem hdef
  have hdata : fData.isEmpty = false := by
    cases fData with
    | nil => cases hmem
    | cons _ _ => rfl
  have hdict : get_dictionary_def true fData = .error err := by
    simp only [get_dictionary_def, Bool.not_true, Bool.false_eq_true, if_false, hdata,
      herr]
  refine ⟨err, hdict, ?_⟩
  intro uOk uBody
  have hnormal : normal_embed true fData maxLen = .error err := by
    simp only [normal_embed, hdict]
  simp only [define, if_neg hq, Bool.false_eq_true, if_false, hnormal]

/-- Witness for `c6_shape_error`: an entry for "test" with no `meanings`
key. -/
theorem c6_shape_error_witness :
    ∃ err, get_dictionary_def true [⟨some "test", none, none⟩] = .error err ∧
      ∀ (uOk : Bool) (uBody : Option UDResponse),
        define "test" false true [⟨some "test", none, none⟩] uOk uBody 4000 =
          .error err :=
  c6_shape_error "test" [⟨some "test", none, none⟩] ⟨some "test", none, none⟩ 4000
    (by simp) (Or.inl rfl) (by decide)

/-! ## C1 — meaning-section budget -/

/-- C1 counterexample: with budget 100 and section bodies of lengths
[40, 80, 30], the second body overflows (40 + 80 > 100) but selection does
*not* stop: the loop has no `break`, so the third body (40 + 30 ≤ 100) is
still selected.  Under the claim's stop-at-first-overflow rule only the
40-character body would remain. -/
theorem c1_counterexample :
    (build_word_embed ⟨"w", none, none, [cBody40, cVerb80, cNoun30]⟩ 100).map
      (fun e => e.fields.map fun f => f.value.length) = .ok [40, 30] := by decide

theorem buildFields_eq_selectBodies (maxLen : Nat) :
    ∀ (ms : List Meaning) (acc : List String),
      buildFields maxLen ms acc = selectBodies maxLen acc (ms.map field_text) := by
  intro ms
  induction ms with
  | nil => intro acc; rfl
  | cons m rest ih =>
    intro acc
    simp only [buildFields, List.map_cons, selectBodies]
    split
    · exact ih (acc ++ [field_text m])
    · exact ih acc

theorem buildFields_starts (maxLen : Nat) :
    ∀ (ms : List Meaning) (x : String) (acc : List String),
      ∃ tl, buildFields maxLen ms (x :: acc) = x :: tl := by
  intro ms
  induction ms with
  | nil => intro x acc; exact ⟨acc, rfl⟩
  | cons m rest ih =>
    intro x acc
    simp only [buildFields]
    split
    · rw [List.cons_append]
      exact ih x (acc ++ [field_text m])
    · exact ih x acc

theorem buildFields_length_le (maxLen : Nat) :
    ∀ (ms : List Meaning) (acc : List String),
      (buildFields maxLen ms acc).length ≤ acc.length + ms.length := by
  intro ms
  induction ms with
  | nil => intro acc; simp [buildFields]
  | cons m rest ih =>
    intro acc
    simp only [buildFields]
    split
    · have := ih (acc ++ [field_text m])
      simp only [List.length_append, List.length_singleton, List.length_cons,
        List.length_nil] at this ⊢
      omega
    · have := ih acc
      simp only [List.length_cons] at this ⊢
      omega

theorem enumFrom_zip_label :
    ∀ (ms : List Meaning) (bs : List String) (n : Nat),
      ((List.enumFrom n (ms.zip bs)).map fun p =>
          (⟨pyStrOr p.2.1.word_class ("Meaning " ++ toString p.1), p.2.2⟩ : EmbedField)) =
        labelSections ms bs n := by
  intro ms
  induction ms with
  | nil => intro bs n; cases bs <;> rfl
  | cons m rest ih =>
    intro bs n
    cases bs with
    | nil => rfl
    | cons b bs' =>
      simp only [List.zip_cons_cons, List.enumFrom, List.map_cons, labelSections]
      exact congrArg (List.cons _) (ih bs' (n + 1))

theorem labelSections_values :
    ∀ (ms : List Meaning) (bs : List String) (n : Nat), bs.length ≤ ms.length →
      (labelSections ms bs n).map EmbedField.value = bs := by
  intro ms
  induction ms with
  | nil =>
    intro bs n h
    cases bs with
    | nil => rfl
    | cons b bs' => simp at h
  | cons m rest ih =>
    intro bs n h
    cases bs with
    | nil => rfl
    | cons b bs' =>
      simp only [labelSections, List.map_cons]
      rw [ih bs' (n + 1) (by simpa using h)]

/-- C1 as amended: the first meaning's section is always included and each
later meaning's body is included exactly when the running total of the
*included* bodies plus its own length stays within the budget; an
overflowing body is skipped but later meanings are still considered
(skip-and-continue, not stop-at-first-overflow).  The [40, 40, 40] budget-100
example from the claim still selects exactly the first two sections. -/
theorem c1_amended :
    (∀ (maxLen : Nat) (w : Word) (m0 : Meaning) (rest : List Meaning),
        w.meanings = m0 :: rest →
        (build_word_embed w maxLen).map (fun e => e.fields.map EmbedField.value) =
          .ok (selectBodies maxLen [field_text m0] (rest.map field_text))) ∧
    (build_word_embed ⟨"w", none, none, [cBody40, cBody40, cBody40]⟩ 100).map
      (fun e => e.fields.map fun f => f.value.length) = .ok [40, 40] := by
  constructor
  · intro maxLen w m0 rest hm
    simp only [build_word_embed, hm, Except.map]
    rw [← buildFields_eq_selectBodies]
    by_cases hlen : (buildFields maxLen rest [field_text m0]).length > 1
    · rw [if_pos hlen]
      refine congrArg Except.ok ?_
      have hle : (buildFields maxLen rest [field_text m0]).length ≤
          (m0 :: rest).length := by
        have := buildFields_length_le maxLen rest [field_text m0]
        simp only [List.length_singleton, List.length_cons, List.length_nil] at this ⊢
        omega
      rw [enumFrom_zip_label]
      exact labelSections_values _ _ _ hle
    · rw [if_neg hlen]
      obtain ⟨tl, htl⟩ := buildFields_starts maxLen rest (field_text m0) []
      have htl0 : tl = [] := by
        rw [htl] at hlen
        simp only [List.length_cons, gt_iff_lt, not_lt] at hlen
        exact List.length_eq_zero.mp (by omega)
      rw [htl, htl0]
      rfl
  · decide

/-- Witness for the general half of `c1_amended` on a one-meaning word. -/
theorem c1_amended_witness :
    (build_word_embed ⟨"w", none, none, [cBody40]⟩ 50).map
      (fun e => e.fields.map EmbedField.value) =
    .ok (selectBodies 50 [field_text cBody40] ([].map field_text)) :=
  c1_amended.1 50 ⟨"w", none, none, [cBody40]⟩ cBody40 [] rfl

/-! ## C5 — section labeling -/

/-- C5 counterexample: with budget 100 and meanings of body lengths
[40, 80, 30] and word classes [none, "verb", "noun"], the selected sections
are the first and the *third* (the second overflows and is skipped).  The
code labels `zip(word.meanings, fields)` positionally, so the section whose
body renders the third meaning (`cNoun30`, class "noun") is labeled with
the *second* meaning's class "verb" — not with its own meaning's class as
the claim states. -/
theorem c5_counterexample :
    (build_word_embed ⟨"w", none, none, [cBody40, cVerb80, cNoun30]⟩ 100).map
      (fun e => e.fields.map fun f => f.name) = .ok ["Meaning 1", "verb"] ∧
    (build_word_embed ⟨"w", none, none, [cBody40, cVerb80, cNoun30]⟩ 100).map
      (fun e => e.fields.map fun f => f.value) =
      .ok [field_text cBody40, field_text cNoun30] := by decide

/-- C5 as amended: labels are *positional*: when more than one section is
selected, the k-th selected section (1-based) is labeled with the k-th
*original* meaning's word class, falling back to `Meaning k` — which
coincides with "its own meaning" only when no earlier meaning was skipped;
when exactly one section is selected it is labeled with the first meaning's
word class or the generic `Meaning`. -/
theorem c5_amended (maxLen : Nat) (w : Word) (m0 : Meaning) (rest : List Meaning)
    (hm : w.meanings = m0 :: rest) :
    ((buildFields maxLen rest [field_text m0]).length > 1 →
        (build_word_embed w maxLen).map Embed.fields =
          .ok (labelSections w.meanings (buildFields maxLen rest [field_text m0]) 1)) ∧
    ((buildFields maxLen rest [field_text m0]).length = 1 →
        (build_word_embed w maxLen).map Embed.fields =
          .ok [⟨pyStrOr m0.word_class "Meaning", field_text m0⟩]) := by
  constructor
  · intro hlen
    simp only [build_word_embed, hm, Except.map]
    rw [if_pos hlen]
    refine congrArg Except.ok ?_
    rw [← hm]
    exact enumFrom_zip_label w.meanings (buildFields maxLen rest [field_text m0]) 1
  · intro hlen
    simp only [build_word_embed, hm, Except.map]
    rw [if_neg (by omega)]
    obtain ⟨tl, htl⟩ := buildFields_starts maxLen rest (field_text m0) []
    have htl0 : tl = [] := by
      rw [htl] at hlen
      simp only [List.length_cons, Nat.add_left_eq_self, List.length_eq_zero] at hlen
      exact hlen
    rw [htl, htl0]
    rfl

/-- Witness for `c5_amended` on a one-meaning word: the single selected
section is labeled with the generic `Meaning` (its word class is absent). -/
theorem c5_amended_witness :
    (build_word_embed ⟨"w", none, none, [cBody40]⟩ 50).map Embed.fields =
      .ok [⟨pyStrOr cBody40.word_class "Meaning", field_text cBody40⟩] :=
  (c5_amended 50 ⟨"w", none, none, [cBody40]⟩ cBody40 [] rfl).2 (by decide)

end Defs
